import Mathlib

/-!
Verification of the pickasso diverse-example selector (src/lib.ts).

We shallowly embed the core library in Lean:
* JavaScript record values (possibly nested objects) become the mutual
  inductive `JsVal` / `JsObj`; JS numbers are modelled as rationals
  (the inputs of interest are JSON data, which has no NaN/Infinity).
* the flattener `flattenObject` (dot-path keys, `Object.assign` merge
  semantics, last write wins) produces a flat association list from
  path strings to scalar leaves;
* `defaultDistance`, `calculateCompleteness`, option validation, the
  samplers and the greedy selection loop are translated function by
  function from src/lib.ts.

JavaScript `NaN` can arise in the library only from the division
`0 / 0` in `calculateCompleteness`; we model that one number as
`Option ℚ` with `none` standing for NaN (NaN-propagation through the
score blend and the failure of `NaN > x` comparisons are modelled at
the use sites).  Ambient randomness (`Math.random`) is passed in
explicitly: a shuffle function for the comparator-based sample, a
stream of draws for reservoir sampling, and one draw for the random
initial pick.
-/

/-- Scalar leaf values that can appear in a flattened record.  `undef`
is JavaScript `undefined`, `null` is JavaScript `null`.  Equality of
leaves models JS `===` on primitives (flattened values are never
objects, so reference equality never arises among leaves). -/
inductive Leaf where
  | num (q : ℚ)
  | str (s : String)
  | bool (b : Bool)
  | null
  | undef
deriving DecidableEq, Repr

mutual
/-- A JavaScript value as consumed by the library: a scalar leaf or a
nested object (JS arrays behave as objects whose keys are the decimal
indices, so `obj` covers them as well). -/
inductive JsVal where
  | num (q : ℚ)
  | str (s : String)
  | bool (b : Bool)
  | null
  | undef
  | obj (o : JsObj)
deriving DecidableEq, Repr

/-- A JavaScript object: its own enumerable keys in insertion order,
as `Object.keys` enumerates them (keys of a live JS object are
pairwise distinct; none of our results depend on that invariant). -/
inductive JsObj where
  | nil
  | cons (k : String) (v : JsVal) (rest : JsObj)
deriving DecidableEq, Repr
end

/-- A flattened record: dot-joined path strings bound to scalar leaves. -/
abbrev Flat := List (String × Leaf)

/-- One JS property write `m[k] = v`: update the binding in place if the
key exists, otherwise append it (JS objects keep insertion order). -/
def setKey (m : Flat) (k : String) (v : Leaf) : Flat :=
  if m.any (fun p => p.1 = k) then
    m.map (fun p => if p.1 = k then (k, v) else p)
  else
    m ++ [(k, v)]

/-- The effect of `Object.assign(acc, m)`: write every binding of `m`
into `acc` in enumeration order. -/
def assignAll (acc : Flat) (m : Flat) : Flat :=
  m.foldl (fun a p => setKey a p.1 p.2) acc

/-- The dot-path key built by `flattenObject`: `prefix ? prefix.key : key`. -/
def dotKey (pre k : String) : String :=
  if pre = "" then k else pre ++ "." ++ k

/-- The body of `flattenObject`'s `reduce`: walk the keys in order,
recursing into non-null objects (via a fresh sub-flattening merged by
`Object.assign`) and writing scalars at their dot path.  Mirrors
src/lib.ts lines 106-118. -/
def flattenAcc (pre : String) (o : JsObj) (acc : Flat) : Flat :=
  match o with
  | .nil => acc
  | .cons k v rest =>
    let fullKey := dotKey pre k
    let acc' :=
      match v with
      | .obj sub => assignAll acc (flattenAcc fullKey sub [])
      | .num q   => setKey acc fullKey (.num q)
      | .str s   => setKey acc fullKey (.str s)
      | .bool b  => setKey acc fullKey (.bool b)
      | .null    => setKey acc fullKey .null
      | .undef   => setKey acc fullKey .undef
    flattenAcc pre rest acc'

/-- Flattening of a record (`flattenObject(obj)` with the default empty
path); `getFlattenedObject`'s WeakMap is a pure memoisation keyed by
object identity and is semantically the identity, so it is not
modelled separately. -/
def flattenObject (o : JsObj) : Flat :=
  flattenAcc "" o []

/-- Reading `flat[key]` in JS: the stored leaf, or `undefined` when the
key is absent. -/
def getVal (m : Flat) (k : String) : Leaf :=
  (m.lookup k).getD Leaf.undef

/-- Insertion-ordered de-duplication, as `new Set([...xs])` enumerates:
every key keeps its first occurrence. -/
def dedupFirst : List String → List String
  | [] => []
  | k :: ks => k :: dedupFirst (ks.filter (fun x => x ≠ k))
termination_by l => l.length
decreasing_by
  simpa using Nat.lt_succ_of_le (List.length_filter_le _ _)

/-- One iteration of `defaultDistance`'s loop over the key union
(src/lib.ts lines 52-69): the accumulator carries the running distance
sum and the count of valid comparisons. -/
def distStep (flat1 flat2 : Flat) (acc : ℚ × ℕ) (key : String) : ℚ × ℕ :=
  let val1 := getVal flat1 key
  let val2 := getVal flat2 key
  if val1 = Leaf.undef ∨ val2 = Leaf.undef then
    (acc.1 + 1, acc.2)
  else
    match val1, val2 with
    | Leaf.num v1, Leaf.num v2 =>
      let maxVal := max |v1| |v2|
      (acc.1 + (if maxVal > 0 then |v1 - v2| / maxVal else 0), acc.2 + 1)
    | w1, w2 =>
      (acc.1 + (if w1 = w2 then 0 else 1), acc.2 + 1)

/-- The union of the two flattened key sets, in `Set` enumeration order. -/
def keyUnion (flat1 flat2 : Flat) : List String :=
  dedupFirst (flat1.map Prod.fst ++ flat2.map Prod.fst)

/-- Translation of `defaultDistance` (src/lib.ts lines 41-72). -/
def defaultDistance (obj1 obj2 : JsObj) : ℚ :=
  let flat1 := flattenObject obj1
  let flat2 := flattenObject obj2
  let allKeys := keyUnion flat1 flat2
  let p := allKeys.foldl (distStep flat1 flat2) (0, 0)
  if p.2 > 0 then p.1 / (allKeys.length : ℚ) else 1

/-- Whether a leaf counts as a defined value in `calculateCompleteness`
(`v !== undefined && v !== null`). -/
def definedLeaf (v : Leaf) : Bool :=
  v ≠ Leaf.undef ∧ v ≠ Leaf.null

/-- Translation of `calculateCompleteness` (src/lib.ts lines 330-336).
The JS code divides by `Object.keys(flat).length` unguarded; on a
record with an empty flattening this is `0 / 0 = NaN`, modelled here
as `none`. -/
def calculateCompleteness (o : JsObj) : Option ℚ :=
  let flat := flattenObject o
  if flat.length = 0 then none
  else some (((flat.filter (fun kv => definedLeaf kv.2)).length : ℚ) / (flat.length : ℚ))

/-- The options record of src/types.ts.  `numExamples` and `sampleSize`
are JS numbers used as counts (modelled as integers: the CLI produces
them with `parseInt`, and the edge-case claims concern negative
values); optional fields are `Option`s, `none` = not supplied. -/
structure SelectorOptions where
  numExamples : ℤ
  sampleSize : Option ℤ
  prioritizeComplete : Option Bool
  completenessWeight : Option ℚ
  distanceFunction : Option (JsObj → JsObj → ℚ)

/-- Message of the `PickassoError` thrown for a bad completeness weight. -/
def weightErrMsg : String := "completenessWeight must be between 0 and 1"

/-- Message of the `PickassoError` thrown for a non-positive sample size. -/
def sampleErrMsg : String := "sampleSize must be positive"

/-- Message of the `PickassoError` thrown when more examples are
requested than items are available. -/
def insufficientErrMsg : String := "Cannot select more examples than available items"

/-- First check of `validateOptions`: `completenessWeight` supplied and
outside [0,1] (src/lib.ts lines 129-133). -/
def weightInvalid (o : SelectorOptions) : Bool :=
  match o.completenessWeight with
  | some w => w < 0 || w > 1
  | none => false

/-- Second check of `validateOptions`: `sampleSize` supplied and ≤ 0
(src/lib.ts lines 135-137). -/
def sampleInvalid (o : SelectorOptions) : Bool :=
  match o.sampleSize with
  | some s => s ≤ 0
  | none => false

/-- Translation of `reservoirSample` (src/lib.ts lines 286-297).  The
random draw `Math.floor(Math.random() * (i + 1))` at position `i` is
an arbitrary integer in `[0, i]`; it is supplied externally as
`rj i % (i + 1)`, which ranges over exactly those values. -/
def reservoirSample (rj : ℕ → ℕ) (items : List JsObj) (k : ℕ) : List JsObj :=
  (List.range' k (items.length - k)).foldl
    (fun res i =>
      let j := rj i % (i + 1)
      if j < k then res.set j (items.getD i JsObj.nil) else res)
    (items.take k)

/-- Translation of `getRandomSample` (src/lib.ts lines 308-311):
`[...items].sort(() => 0.5 - Math.random()).slice(0, sampleSize)`.
The comparator draws a fresh random number per call, so the sort's
outcome is a randomness-dependent reordering; it enters the model as
the function `shuffle` (the bias of this construction is analysed
separately by `randomCompareSort` below). -/
def getRandomSample (shuffle : List JsObj → List JsObj) (items : List JsObj) (k : ℕ) :
    List JsObj :=
  (shuffle items).take k

/-- Translation of `getEfficientSample` (src/lib.ts lines 269-275):
reservoir sampling above 10,000 items, the comparator shuffle below. -/
def getEfficientSample (shuffle : List JsObj → List JsObj) (rj : ℕ → ℕ)
    (items : List JsObj) (k : ℕ) : List JsObj :=
  if items.length > 10000 then reservoirSample rj items k
  else getRandomSample shuffle items k

/-- The first-pick sort comparator
`(a, b) => calculateCompleteness(b) - calculateCompleteness(a)`
(src/lib.ts line 213).  When either completeness is NaN the subtraction
is NaN, which ECMAScript `SortCompare` coerces to `+0`. -/
def completenessCmp (a b : JsObj) : ℚ :=
  match calculateCompleteness b, calculateCompleteness a with
  | some cb, some ca => cb - ca
  | _, _ => 0

/-- The in-place completeness sort of the first pick
(src/lib.ts lines 212-214), as a stable sort by the comparator
(ECMAScript requires `Array.prototype.sort` to be stable). -/
def sortByCompleteness (l : List JsObj) : List JsObj :=
  l.mergeSort (fun a b => decide (completenessCmp a b ≤ 0))

/-- JS `Math.min(...xs)` over the list of candidate-to-selected
distances.  `Math.min()` of an empty spread is `+Infinity`; the
selector only evaluates it with a nonempty `selected`, so the `[]` arm
is inert padding for totality. -/
def minList (l : List ℚ) : ℚ :=
  match l with
  | [] => 0
  | x :: xs => xs.foldl min x

/-- Candidate score of the iterative pick (src/lib.ts lines 232-242):
the min distance to the selected set, blended with completeness when
`prioritizeComplete` is set.  A NaN completeness makes the blended JS
score NaN; this propagates as `none`. -/
def scoreOf (dist : JsObj → JsObj → ℚ) (prioritize : Bool) (w : ℚ)
    (selected : List JsObj) (item : JsObj) : Option ℚ :=
  let minDistance := minList (selected.map (fun s => dist item s))
  if prioritize then
    (calculateCompleteness item).map (fun c => (1 - w) * minDistance + w * c)
  else some minDistance

/-- The inner argmax scan of the selection loop (src/lib.ts lines
226-249): fold over the candidates with their indices, starting from
`maxScore = -1`, `bestItem = null`, keeping the first strict
improvement.  A `none` (NaN) score fails the `score > maxScore`
comparison and never updates the best. -/
def bestStep (score : JsObj → Option ℚ) (acc : ℚ × Option (JsObj × ℕ))
    (p : ℕ × JsObj) : ℚ × Option (JsObj × ℕ) :=
  match score p.2 with
  | some s => if s > acc.1 then (s, some (p.2, p.1)) else acc
  | none => acc

def findBest (score : JsObj → Option ℚ) (remaining : List JsObj) :
    ℚ × Option (JsObj × ℕ) :=
  remaining.enum.foldl (bestStep score) (-1, none)

/-- The `while (selected.length < numExamples && remainingItems.length > 0)`
loop (src/lib.ts lines 225-255).  Each iteration splices the winning
index out of `remaining` and appends the winner to `selected`; the
structural `fuel` is instantiated with `remaining.length` at the call
site, and since every iteration removes exactly one remaining item the
fuel can never run short of the loop guard. -/
def selectLoop (k : ℤ) (score : List JsObj → JsObj → Option ℚ) :
    ℕ → List JsObj → List JsObj → List JsObj
  | 0, _, selected => selected
  | fuel + 1, remaining, selected =>
    if (selected.length : ℤ) < k ∧ remaining ≠ [] then
      match (findBest (score selected) remaining).2 with
      | none => selected
      | some (item, idx) =>
        selectLoop k score fuel (remaining.eraseIdx idx) (selected ++ [item])
    else selected

/-- The selection phase after sampling (src/lib.ts lines 210-257):
initial pick (most complete, or the uniformly random index `r % n`
standing for `Math.floor(Math.random() * n)`), removal via
`splice(indexOf(x), 1)` — which deletes the first occurrence equal to
the pick, `List.erase` — then the greedy loop.  The `[]` arms are
unreachable: the caller guards against an empty working set. -/
def selectPhase (r : ℕ) (k : ℤ) (prioritize : Bool)
    (score : List JsObj → JsObj → Option ℚ) (sampledItems : List JsObj) : List JsObj :=
  if prioritize then
    match sortByCompleteness sampledItems with
    | [] => []
    | x :: rest => selectLoop k score rest.length rest [x]
  else
    match sampledItems with
    | [] => []
    | _ :: _ =>
      let x := sampledItems.getD (r % sampledItems.length) JsObj.nil
      let rest := sampledItems.erase x
      selectLoop k score rest.length rest [x]

/-- Translation of `selectDiverseExamples` (src/lib.ts lines 171-258).
Validation, the empty/zero early return, the insufficient-items check,
sampling, then selection.  Randomness is passed explicitly: `shuffle`
for the comparator sort, `rj` for reservoir draws, `r` for the random
first pick.  The distance cache keyed by index pairs (modelled
separately as `getCachedDistance`) memoises the pure
`distanceFunction` per ordered position pair, so the selection result
equals calling the distance function directly. -/
def selectDiverseExamples (shuffle : List JsObj → List JsObj) (rj : ℕ → ℕ) (r : ℕ)
    (items : List JsObj) (options : SelectorOptions) : Except String (List JsObj) :=
  if weightInvalid options then .error weightErrMsg
  else if sampleInvalid options then .error sampleErrMsg
  else
    let numExamples := options.numExamples
    let sampleSize : ℤ := options.sampleSize.getD (min 1000 (items.length : ℤ))
    let prioritizeComplete := options.prioritizeComplete.getD false
    let completenessWeight := options.completenessWeight.getD (3 / 10)
    let dist := options.distanceFunction.getD defaultDistance
    if items.length = 0 ∨ numExamples = 0 then .ok []
    else if numExamples > (items.length : ℤ) then .error insufficientErrMsg
    else
      let sampledItems :=
        if (items.length : ℤ) > sampleSize then
          getEfficientSample shuffle rj items sampleSize.toNat
        else items
      .ok (selectPhase r numExamples prioritizeComplete
        (scoreOf dist prioritizeComplete completenessWeight) sampledItems)

/-- Size of the working set the selector actually operates on: the full
collection unless it exceeds the (defaulted) `sampleSize`. -/
def effectiveSampleSize (items : List JsObj) (options : SelectorOptions) : ℕ :=
  let sampleSize : ℤ := options.sampleSize.getD (min 1000 (items.length : ℤ))
  if (items.length : ℤ) > sampleSize then sampleSize.toNat else items.length

/-- JS `items.indexOf(a)`: index of the first occurrence, `-1` when
absent (entries of a JS array are compared by `===`; for the record
lists in scope, structural equality of distinct occurrences is
observationally equivalent at the multiset level). -/
def jsIndexOf (l : List JsObj) (a : JsObj) : ℤ :=
  if a ∈ l then (l.indexOf a : ℤ) else -1

/-- The distance-cache key `` `${items.indexOf(a)}-${items.indexOf(b)}` ``
(src/lib.ts line 203). -/
def cacheKey (items : List JsObj) (a b : JsObj) : String :=
  toString (jsIndexOf items a) ++ "-" ++ toString (jsIndexOf items b)

/-- Translation of the `getCachedDistance` closure (src/lib.ts lines
202-208), with the `Map` passed explicitly: look the key up, computing
and inserting the distance on a miss. -/
def getCachedDistance (dist : JsObj → JsObj → ℚ) (items : List JsObj)
    (cache : List (String × ℚ)) (a b : JsObj) : ℚ × List (String × ℚ) :=
  let key := cacheKey items a b
  match cache.lookup key with
  | some v => (v, cache)
  | none => (dist a b, (key, dist a b) :: cache)

/-- Insertion of one element into a list, with every comparator call
consuming one fair coin.  Models one insertion step of
`Array.prototype.sort` run with the comparator
`() => 0.5 - Math.random()` of src/lib.ts line 309: the comparator's
sign is a fresh fair coin on every call (`true` = negative, keep the
inserted element in front).  ECMAScript leaves the order produced by an
inconsistent comparator implementation-defined; we instantiate the sort
with stable insertion sort to exhibit the distribution it induces. -/
def insertRandom {α : Type} (a : α) : List α → List Bool → List α × List Bool
  | [], coins => ([a], coins)
  | b :: bs, [] => (a :: b :: bs, [])
  | b :: bs, c :: cs =>
    if c then (a :: b :: bs, cs)
    else
      let p := insertRandom a bs cs
      (b :: p.1, p.2)

/-- Insertion sort driven by a stream of fair comparator coins; see
`insertRandom`. -/
def randomCompareSortAux {α : Type} : List α → List Bool → List α × List Bool
  | [], coins => ([], coins)
  | a :: as, coins =>
    let p := randomCompareSortAux as coins
    insertRandom a p.1 p.2

/-- The "random compare" shuffle of `getRandomSample`, instantiated
with insertion sort: the reordering produced from a given stream of
comparator coins. -/
def randomCompareSort {α : Type} (l : List α) (coins : List Bool) : List α :=
  (randomCompareSortAux l coins).1

/-- All coin streams of a given length, each equally likely, so counts
over `boolStreams n` are outcome probabilities in units of `1 / 2 ^ n`. -/
def boolStreams : ℕ → List (List Bool)
  | 0 => [[]]
  | n + 1 => (boolStreams n).map (List.cons true) ++ (boolStreams n).map (List.cons false)

/-- Concrete record `{ a: 0 }` used in witnesses and counterexamples. -/
def recX0 : JsObj := .cons "a" (.num 0) .nil

/-- Concrete record `{ a: 1 }` used in witnesses and counterexamples. -/
def recX1 : JsObj := .cons "a" (.num 1) .nil

/-- Concrete record `{ x: 1 }` for the distance-range analysis. -/
def recP1 : JsObj := .cons "x" (.num 1) .nil

/-- Concrete record `{ x: -1 }` for the distance-range analysis. -/
def recN1 : JsObj := .cons "x" (.num (-1)) .nil

/-- Per-key distance contribution of `defaultDistance`'s loop, isolated
from the running accumulator: 1 for a missing side, the normalised
numeric difference for two numbers, equality penalty otherwise. -/
def deltaKey (flat1 flat2 : Flat) (key : String) : ℚ :=
  let val1 := getVal flat1 key
  let val2 := getVal flat2 key
  if val1 = Leaf.undef ∨ val2 = Leaf.undef then 1
  else
    match val1, val2 with
    | Leaf.num v1, Leaf.num v2 =>
      let maxVal := max |v1| |v2|
      if maxVal > 0 then |v1 - v2| / maxVal else 0
    | w1, w2 => if w1 = w2 then 0 else 1

/-- Per-key valid-comparison indicator of `defaultDistance`'s loop. -/
def chiKey (flat1 flat2 : Flat) (key : String) : ℕ :=
  if getVal flat1 key = Leaf.undef ∨ getVal flat2 key = Leaf.undef then 0 else 1

lemma distStep_eq (f1 f2 : Flat) (acc : ℚ × ℕ) (k : String) :
    distStep f1 f2 acc k = (acc.1 + deltaKey f1 f2 k, acc.2 + chiKey f1 f2 k) := by
  simp only [distStep, deltaKey, chiKey]
  rcases getVal f1 k with q1 | s1 | b1 | _ | _ <;>
    rcases getVal f2 k with q2 | s2 | b2 | _ | _ <;> simp

lemma foldl_distStep (f1 f2 : Flat) :
    ∀ (ks : List String) (a : ℚ) (c : ℕ),
      ks.foldl (distStep f1 f2) (a, c)
        = (a + (ks.map (deltaKey f1 f2)).sum, c + (ks.map (chiKey f1 f2)).sum) := by
  intro ks
  induction ks with
  | nil => simp
  | cons k ks ih =>
    intro a c
    simp only [List.foldl, distStep_eq, ih, List.map_cons, List.sum_cons]
    rw [add_assoc, add_assoc]

lemma defaultDistance_eq (a b : JsObj) :
    defaultDistance a b =
      if 0 < ((keyUnion (flattenObject a) (flattenObject b)).map
                (chiKey (flattenObject a) (flattenObject b))).sum
      then ((keyUnion (flattenObject a) (flattenObject b)).map
              (deltaKey (flattenObject a) (flattenObject b))).sum
           / (((keyUnion (flattenObject a) (flattenObject b)).length : ℚ))
      else 1 := by
  simp only [defaultDistance, foldl_distStep, Nat.zero_add, zero_add]

lemma mem_dedupFirst : ∀ (l : List String) (x : String), x ∈ dedupFirst l ↔ x ∈ l := by
  intro l
  induction l using dedupFirst.induct with
  | case1 => simp [dedupFirst]
  | case2 k ks ih =>
    intro x
    rw [dedupFirst]
    by_cases hx : x = k
    · simp [hx]
    · simp only [List.mem_cons, ih, List.mem_filter]
      simp [hx]

lemma nodup_dedupFirst : ∀ (l : List String), (dedupFirst l).Nodup := by
  intro l
  induction l using dedupFirst.induct with
  | case1 => simp [dedupFirst]
  | case2 k ks ih =>
    rw [dedupFirst]
    refine List.nodup_cons.2 ⟨?_, ih⟩
    intro hk
    have := (mem_dedupFirst _ k).1 hk
    simp at this

lemma keyUnion_comm_perm (f1 f2 : Flat) : (keyUnion f1 f2).Perm (keyUnion f2 f1) := by
  refine (List.perm_ext_iff_of_nodup (nodup_dedupFirst _) (nodup_dedupFirst _)).2 ?_
  intro a
  simp [keyUnion, mem_dedupFirst, or_comm]

lemma deltaKey_comm (f1 f2 : Flat) (k : String) : deltaKey f1 f2 k = deltaKey f2 f1 k := by
  simp only [deltaKey]
  rcases getVal f1 k with q1 | s1 | b1 | _ | _ <;>
    rcases getVal f2 k with q2 | s2 | b2 | _ | _ <;>
      simp [or_comm, max_comm, abs_sub_comm, eq_comm]

lemma chiKey_comm (f1 f2 : Flat) (k : String) : chiKey f1 f2 k = chiKey f2 f1 k := by
  simp only [chiKey, or_comm]

/-- Claim C9: for every two records `a` and `b`,
`defaultDistance(a, b)` equals `defaultDistance(b, a)`: the key union
is order-insensitive up to permutation and every per-key contribution
is symmetric in the two flattened records. -/
theorem claim_C9_defaultDistance_symmetric :
    ∀ a b : JsObj, defaultDistance a b = defaultDistance b a := by
  intro a b
  rw [defaultDistance_eq, defaultDistance_eq]
  have hperm := keyUnion_comm_perm (flattenObject a) (flattenObject b)
  have hχ : ((keyUnion (flattenObject a) (flattenObject b)).map
      (chiKey (flattenObject a) (flattenObject b))).sum
    = ((keyUnion (flattenObject b) (flattenObject a)).map
      (chiKey (flattenObject b) (flattenObject a))).sum := by
    rw [List.map_congr_left (fun k _ => chiKey_comm (flattenObject a) (flattenObject b) k)]
    exact (hperm.map _).sum_eq
  have hδ : ((keyUnion (flattenObject a) (flattenObject b)).map
      (deltaKey (flattenObject a) (flattenObject b))).sum
    = ((keyUnion (flattenObject b) (flattenObject a)).map
      (deltaKey (flattenObject b) (flattenObject a))).sum := by
    rw [List.map_congr_left (fun k _ => deltaKey_comm (flattenObject a) (flattenObject b) k)]
    exact (hperm.map _).sum_eq
  rw [hχ, hδ, hperm.length_eq]

/-- Claim C2 (code bug): `defaultDistance` escapes [0,1].  For the
records `{x: 1}` and `{x: -1}` the numeric term contributes
`|1 - (-1)| / max(1, 1) = 2` over a key union of size 1, so the
distance is 2 — contradicting both the spec's `[0,1]` contract and the
function's own doc comment ("A number between 0 and 1"). -/
theorem claim_C2_distance_escapes_unit_interval :
    defaultDistance recP1 recN1 = 2 ∧ ¬ defaultDistance recP1 recN1 ≤ 1 := by
  have h : defaultDistance recP1 recN1 = 2 := by
    simp [defaultDistance, recP1, recN1, flattenObject, flattenAcc, setKey, dotKey, keyUnion,
      dedupFirst, distStep, getVal, List.lookup, assignAll]
    norm_num
  exact ⟨h, by rw [h]; norm_num⟩

/-- Claim C3 (code bug): `calculateCompleteness` has no special case
for a record with zero flattened leaf paths; it computes `0 / 0`,
which is NaN in JavaScript (modelled as `none`), not the 0 the spec
mandates.  Both the empty record and a record of empty nested objects
hit this. -/
theorem claim_C3_completeness_nan_on_empty_record :
    calculateCompleteness JsObj.nil = none ∧
      calculateCompleteness (JsObj.cons "a" (JsVal.obj JsObj.nil) JsObj.nil) = none := by
  constructor <;>
    simp [calculateCompleteness, flattenObject, flattenAcc, assignAll, setKey, dotKey]

/-- Claim C4 counterexample: the empty record flattens to an empty
mapping, so it has zero valid comparisons and `defaultDistance`
returns the documented maximal-dissimilarity fallback 1 — not 0 as the
claim asserts for every record. -/
theorem claim_C4_counterexample :
    defaultDistance JsObj.nil JsObj.nil = 1 ∧ defaultDistance JsObj.nil JsObj.nil ≠ 0 := by
  have h : defaultDistance JsObj.nil JsObj.nil = 1 := by
    simp [defaultDistance, flattenObject, flattenAcc, keyUnion, dedupFirst]
  exact ⟨h, by rw [h]; norm_num⟩

lemma lookup_mem_of_mem_keys {m : Flat} {k : String} (hk : k ∈ m.map Prod.fst) :
    ∃ v, m.lookup k = some v ∧ (k, v) ∈ m := by
  induction m with
  | nil => simp at hk
  | cons p rest ih =>
    obtain ⟨k1, v1⟩ := p
    by_cases h : k = k1
    · subst h
      exact ⟨v1, by simp [List.lookup], by simp⟩
    · have hk' : k ∈ rest.map Prod.fst := by
        rcases List.mem_map.1 hk with ⟨q, hq, hfst⟩
        rcases List.mem_cons.1 hq with hq1 | hq2
        · exfalso
          apply h
          rw [hq1] at hfst
          exact hfst.symm ▸ rfl
        · exact List.mem_map.2 ⟨q, hq2, hfst⟩
      rcases ih hk' with ⟨v, hv, hmem⟩
      refine ⟨v, ?_, List.mem_cons.2 (Or.inr hmem)⟩
      have hbeq : (k == k1) = false := beq_eq_false_iff_ne.2 h
      simp [List.lookup, hbeq, hv]

/-- Claim C4 (amended): self-distance is zero for every record whose
flattening is nonempty and carries no `undefined` leaf: every key of
the union is then a valid comparison contributing zero.  (For a record
with an empty flattening, or all-`undefined` leaves, the
zero-valid-comparisons fallback returns 1 instead — see the
counterexample.) -/
theorem claim_C4_self_distance_zero :
    ∀ x : JsObj, flattenObject x ≠ [] →
      (∀ kv ∈ flattenObject x, kv.2 ≠ Leaf.undef) →
      defaultDistance x x = 0 := by
  intro x hne hdef
  rw [defaultDistance_eq]
  have hkeys : ∀ k ∈ keyUnion (flattenObject x) (flattenObject x),
      ∃ v, (flattenObject x).lookup k = some v ∧ v ≠ Leaf.undef := by
    intro k hk
    have hmk : k ∈ (flattenObject x).map Prod.fst := by
      have := (mem_dedupFirst _ k).1 hk
      simpa using this
    rcases lookup_mem_of_mem_keys hmk with ⟨v, hv, hmem⟩
    exact ⟨v, hv, hdef _ hmem⟩
  have hδ : ∀ k ∈ keyUnion (flattenObject x) (flattenObject x),
      deltaKey (flattenObject x) (flattenObject x) k = 0 := by
    intro k hk
    rcases hkeys k hk with ⟨v, hv, hvu⟩
    have hgv : getVal (flattenObject x) k = v := by simp [getVal, hv]
    simp only [deltaKey, hgv]
    rw [if_neg (by simp [hvu])]
    rcases v with q | s | b | _ | _
    · simp only [sub_self, abs_zero]
      split <;> simp
    · simp
    · simp
    · simp
    · exact absurd rfl hvu
  have hχ : ∀ k ∈ keyUnion (flattenObject x) (flattenObject x),
      chiKey (flattenObject x) (flattenObject x) k = 1 := by
    intro k hk
    rcases hkeys k hk with ⟨v, hv, hvu⟩
    have hgv : getVal (flattenObject x) k = v := by simp [getVal, hv]
    simp [chiKey, hgv, hvu]
  have hune : keyUnion (flattenObject x) (flattenObject x) ≠ [] := by
    rcases hfx : flattenObject x with _ | ⟨p, rest⟩
    · exact absurd hfx hne
    · simp [keyUnion, dedupFirst]
  have hsum0 : ((keyUnion (flattenObject x) (flattenObject x)).map
      (deltaKey (flattenObject x) (flattenObject x))).sum = 0 := by
    apply List.sum_eq_zero
    intro q hq
    rcases List.mem_map.1 hq with ⟨k, hk, hqk⟩
    rw [← hqk]; exact hδ k hk
  have hχsum : ((keyUnion (flattenObject x) (flattenObject x)).map
      (chiKey (flattenObject x) (flattenObject x))).sum
      = (keyUnion (flattenObject x) (flattenObject x)).length := by
    have hrepl : (keyUnion (flattenObject x) (flattenObject x)).map
        (chiKey (flattenObject x) (flattenObject x))
        = List.replicate (keyUnion (flattenObject x) (flattenObject x)).length 1 := by
      rw [List.eq_replicate_iff]
      refine ⟨by simp, ?_⟩
      intro b hb
      rcases List.mem_map.1 hb with ⟨k, hk, hkb⟩
      rw [← hkb]; exact hχ k hk
    rw [hrepl, List.sum_replicate, smul_eq_mul, mul_one]
  rw [if_pos (by rw [hχsum]; exact List.length_pos.2 hune), hsum0, zero_div]

/-- Witness for the amended C4 at the concrete record `{x: 1}`. -/
theorem claim_C4_self_distance_zero_witness :
    (flattenObject recP1 ≠ [] ∧ ∀ kv ∈ flattenObject recP1, kv.2 ≠ Leaf.undef) ∧
      defaultDistance recP1 recP1 = 0 := by
  have h1 : flattenObject recP1 = [("x", Leaf.num 1)] := by
    simp [flattenObject, recP1, flattenAcc, setKey, dotKey]
  refine ⟨⟨by rw [h1]; simp, ?_⟩, ?_⟩
  · rw [h1]; intro kv hkv; simp at hkv; rw [hkv]; simp
  · exact claim_C4_self_distance_zero recP1 (by rw [h1]; simp)
      (by rw [h1]; intro kv hkv; simp at hkv; rw [hkv]; simp)

/-- Claim C5 counterexample: the cache key is the ORDERED pair of
original positions.  With `items = [{a:0}, {a:1}]`, the call on
`(items[0], items[1])` uses key `"0-1"` while the swapped call uses
`"1-0"`; starting from an empty cache, performing both calls leaves
two distinct cache entries and evaluates the distance function twice —
the claimed shared unordered-pair entry does not exist. -/
theorem claim_C5_counterexample :
    cacheKey [recX0, recX1] recX0 recX1 = "0-1" ∧
    cacheKey [recX0, recX1] recX1 recX0 = "1-0" ∧
    cacheKey [recX0, recX1] recX0 recX1 ≠ cacheKey [recX0, recX1] recX1 recX0 ∧
    ((getCachedDistance defaultDistance [recX0, recX1]
        (getCachedDistance defaultDistance [recX0, recX1] [] recX0 recX1).2
        recX1 recX0).2).length = 2 := by
  refine ⟨by decide, by decide, by decide, by decide⟩

/-- Claim C5 (amended): the distance cache is keyed by the ordered pair
of the two records' stable positions in the original collection
(`items.indexOf`), and a repeated call with the same ordered argument
pair is a pure cache hit: it returns the cached value and leaves the
cache unchanged, so the distance function is evaluated at most once
per ordered position pair. -/
theorem claim_C5_cached_per_ordered_pair :
    ∀ (dist : JsObj → JsObj → ℚ) (items : List JsObj)
      (cache : List (String × ℚ)) (a b : JsObj),
      getCachedDistance dist items (getCachedDistance dist items cache a b).2 a b
        = getCachedDistance dist items cache a b := by
  intro dist items cache a b
  rcases h : cache.lookup (cacheKey items a b) with _ | v
  · simp [getCachedDistance, h, List.lookup]
  · simp [getCachedDistance, h]

/-- Claim C6 (code bug): `getRandomSample` shuffles with
`sort(() => 0.5 - Math.random())`.  Instantiating the
implementation-defined inconsistent-comparator sort with stable
insertion sort and enumerating the 8 equally likely 3-coin streams,
the identity order appears twice while `[1,0,2]` appears once:
probabilities 1/4 versus 1/8, so the comparator shuffle is not
uniform (uniformity would need 1/6 each, impossible in eighths). -/
theorem claim_C6_random_compare_shuffle_biased :
    ((boolStreams 3).map (randomCompareSort [0, 1, 2])).count [0, 1, 2] = 2 ∧
    ((boolStreams 3).map (randomCompareSort [0, 1, 2])).count [1, 0, 2] = 1 := by
  decide

lemma selectDiverseExamples_eq_of_valid (shuffle : List JsObj → List JsObj) (rj : ℕ → ℕ)
    (r : ℕ) (items : List JsObj) (o : SelectorOptions)
    (hw : weightInvalid o = false) (hs : sampleInvalid o = false) :
    selectDiverseExamples shuffle rj r items o =
      if items.length = 0 ∨ o.numExamples = 0 then Except.ok []
      else if o.numExamples > (items.length : ℤ) then Except.error insufficientErrMsg
      else Except.ok (selectPhase r o.numExamples (o.prioritizeComplete.getD false)
        (scoreOf (o.distanceFunction.getD defaultDistance) (o.prioritizeComplete.getD false)
          (o.completenessWeight.getD (3 / 10)))
        (if (items.length : ℤ) > o.sampleSize.getD (min 1000 (items.length : ℤ)) then
            getEfficientSample shuffle rj items
              (o.sampleSize.getD (min 1000 (items.length : ℤ))).toNat
          else items)) := by
  simp only [selectDiverseExamples, hw, hs]
  simp

/-- Claim C7: with validation-passing options, the selector raises the
insufficient-items error exactly when the collection is non-empty and
`numExamples` is positive and exceeds its size; the empty-collection
and zero-request cases return an empty sequence without error,
skipping the count check. -/
theorem claim_C7_insufficient_items_iff :
    ∀ (shuffle : List JsObj → List JsObj) (rj : ℕ → ℕ) (r : ℕ)
      (items : List JsObj) (o : SelectorOptions),
      weightInvalid o = false → sampleInvalid o = false →
      (selectDiverseExamples shuffle rj r items o = Except.error insufficientErrMsg ↔
        items ≠ [] ∧ 0 < o.numExamples ∧ (items.length : ℤ) < o.numExamples) ∧
      ((items = [] ∨ o.numExamples = 0) →
        selectDiverseExamples shuffle rj r items o = Except.ok []) := by
  intro shuffle rj r items o hw hs
  rw [selectDiverseExamples_eq_of_valid shuffle rj r items o hw hs]
  constructor
  · by_cases h0 : items.length = 0 ∨ o.numExamples = 0
    · rw [if_pos h0]
      constructor
      · intro h; exact absurd h (by simp)
      · rintro ⟨hne, hpos, _⟩
        rcases h0 with h0 | h0
        · exact absurd (List.length_eq_zero.1 h0) hne
        · exact absurd h0 (by omega)
    · by_cases h1 : o.numExamples > (items.length : ℤ)
      · rw [if_neg h0, if_pos h1]
        constructor
        · intro _
          push_neg at h0
          refine ⟨fun hnil => h0.1 (by rw [hnil]; rfl), ?_, h1⟩
          have hlen : 0 < items.length := Nat.pos_of_ne_zero h0.1
          have : (0 : ℤ) < (items.length : ℤ) := by exact_mod_cast hlen
          omega
        · intro _; rfl
      · rw [if_neg h0, if_neg h1]
        constructor
        · intro h; exact absurd h (by simp)
        · rintro ⟨_, _, hlt⟩; exact absurd hlt (by omega)
  · intro h
    rw [if_pos]
    rcases h with h | h
    · exact Or.inl (by rw [h]; rfl)
    · exact Or.inr h

/-- Witness for C7 at a concrete input: one item, two requested. -/
theorem claim_C7_insufficient_items_iff_witness :
    selectDiverseExamples id (fun n => n) 0 [recX0]
        (SelectorOptions.mk 2 none none none none)
      = Except.error insufficientErrMsg :=
  ((claim_C7_insufficient_items_iff id (fun n => n) 0 [recX0]
      (SelectorOptions.mk 2 none none none none) rfl rfl).1).2
    ⟨by simp, by norm_num, by simp⟩

/-- Claim C8: the selector raises the configuration error
synchronously — before the edge-case returns, the count check and any
selection work — whenever `completenessWeight` is supplied outside
[0,1] (regardless of every other option and of the items, including an
empty collection or a zero request), and whenever `sampleSize` is
supplied non-positive (the weight check runs first). -/
theorem claim_C8_configuration_error_before_selection :
    ∀ (shuffle : List JsObj → List JsObj) (rj : ℕ → ℕ) (r : ℕ)
      (items : List JsObj) (o : SelectorOptions),
      (weightInvalid o = true →
        selectDiverseExamples shuffle rj r items o = Except.error weightErrMsg) ∧
      (weightInvalid o = false → sampleInvalid o = true →
        selectDiverseExamples shuffle rj r items o = Except.error sampleErrMsg) := by
  intro shuffle rj r items o
  constructor
  · intro hw; simp [selectDiverseExamples, hw]
  · intro hw hs; simp [selectDiverseExamples, hw, hs]

/-- Witness for C8: weight 2 rejected even with empty items and zero
request; sample size 0 rejected when the weight is absent. -/
theorem claim_C8_configuration_error_before_selection_witness :
    selectDiverseExamples id (fun n => n) 0 []
        (SelectorOptions.mk 0 none none (some 2) none) = Except.error weightErrMsg ∧
    selectDiverseExamples id (fun n => n) 0 []
        (SelectorOptions.mk 0 (some 0) none none none) = Except.error sampleErrMsg :=
  ⟨(claim_C8_configuration_error_before_selection id (fun n => n) 0 []
      (SelectorOptions.mk 0 none none (some 2) none)).1
      (by simp [weightInvalid]),
   (claim_C8_configuration_error_before_selection id (fun n => n) 0 []
      (SelectorOptions.mk 0 (some 0) none none none)).2 rfl
      (by simp [sampleInvalid])⟩

lemma selectLoop_stop (k : ℤ) (score : List JsObj → JsObj → Option ℚ)
    (fuel : ℕ) (remaining selected : List JsObj)
    (h : ¬ (selected.length : ℤ) < k) :
    selectLoop k score fuel remaining selected = selected := by
  cases fuel with
  | zero => rfl
  | succ fuel => simp [selectLoop, h]

lemma bestStep_preserves_spec {score : JsObj → Option ℚ} {P : JsObj → ℕ → Prop}
    (ps : List (ℕ × JsObj)) (acc : ℚ × Option (JsObj × ℕ))
    (hacc : ∀ it ix, acc.2 = some (it, ix) → P it ix)
    (hps : ∀ p ∈ ps, P p.2 p.1) :
    ∀ it ix, (ps.foldl (bestStep score) acc).2 = some (it, ix) → P it ix := by
  induction ps generalizing acc with
  | nil => exact hacc
  | cons p ps ih =>
    refine ih (bestStep score acc p) ?_ (fun q hq => hps q (List.mem_cons.2 (Or.inr hq)))
    intro it ix hb
    rcases hsc : score p.2 with _ | s
    · simp only [bestStep, hsc] at hb
      exact hacc it ix hb
    · simp only [bestStep, hsc] at hb
      by_cases hgt : s > acc.1
      · rw [if_pos hgt] at hb
        have hpair : p.2 = it ∧ p.1 = ix := by simpa using hb
        exact hpair.1 ▸ hpair.2 ▸ hps p (List.mem_cons.2 (Or.inl rfl))
      · rw [if_neg hgt] at hb
        exact hacc it ix hb

lemma findBest_snd_spec (score : JsObj → Option ℚ) (remaining : List JsObj)
    {item : JsObj} {idx : ℕ} (hb : (findBest score remaining).2 = some (item, idx)) :
    idx < remaining.length ∧ remaining.get? idx = some item := by
  refine bestStep_preserves_spec (P := fun it ix =>
    ix < remaining.length ∧ remaining.get? ix = some it) remaining.enum (-1, none)
    (by intro it ix h; exact absurd h (by simp)) ?_ item idx hb
  intro p hp
  have hget : remaining.get? p.1 = some p.2 := List.mem_enum_iff_get?.1 hp
  exact ⟨(List.get?_eq_some.1 hget).1, hget⟩

lemma bestStep_preserves_isSome {score : JsObj → Option ℚ}
    (ps : List (ℕ × JsObj)) (acc : ℚ × Option (JsObj × ℕ))
    (hacc : acc.2.isSome) : (ps.foldl (bestStep score) acc).2.isSome := by
  induction ps generalizing acc with
  | nil => exact hacc
  | cons p ps ih =>
    refine ih (bestStep score acc p) ?_
    simp only [bestStep]
    rcases score p.2 with _ | s
    · exact hacc
    · by_cases hgt : s > acc.1
      · simp [hgt]
      · simpa [hgt] using hacc

lemma findBest_snd_isSome (score : JsObj → Option ℚ) (remaining : List JsObj)
    (hne : remaining ≠ [])
    (hsc : ∀ x ∈ remaining, ∃ s, score x = some s ∧ 0 ≤ s) :
    ∃ item idx, (findBest score remaining).2 = some (item, idx) := by
  rcases remaining with _ | ⟨x, rest⟩
  · exact absurd rfl hne
  · obtain ⟨s, hs, hs0⟩ := hsc x (List.mem_cons.2 (Or.inl rfl))
    have h1 : bestStep score (-1, none) (0, x) = (s, some (x, 0)) := by
      simp only [bestStep, hs]
      rw [if_pos (by linarith)]
    have h2 : (findBest score (x :: rest)).2.isSome := by
      unfold findBest
      rw [List.enum_cons, List.foldl_cons, h1]
      exact bestStep_preserves_isSome _ _ rfl
    rcases ho : (findBest score (x :: rest)).2 with _ | ⟨it, ix⟩
    · rw [ho] at h2; exact absurd h2 (by simp)
    · exact ⟨it, ix, rfl⟩

lemma cons_eraseIdx_perm :
    ∀ (l : List JsObj) (i : ℕ) (a : JsObj), l.get? i = some a →
      l.Perm (a :: l.eraseIdx i) := by
  intro l
  induction l with
  | nil => intro i a h; simp at h
  | cons x xs ih =>
    intro i a h
    cases i with
    | zero =>
      simp only [List.get?] at h
      obtain rfl : x = a := by injection h
      simp [List.eraseIdx]
    | succ i =>
      simp only [List.get?] at h
      have hxs := ih i a h
      have h1 : (x :: xs).Perm (x :: (a :: xs.eraseIdx i)) := hxs.cons x
      have h2 : (x :: a :: xs.eraseIdx i).Perm (a :: x :: xs.eraseIdx i) :=
        List.Perm.swap a x _
      have h3 : a :: x :: xs.eraseIdx i = a :: (x :: xs).eraseIdx (i + 1) := by
        simp
      exact h3 ▸ h1.trans h2

lemma selectLoop_append (k : ℤ) (score : List JsObj → JsObj → Option ℚ) :
    ∀ (fuel : ℕ) (remaining selected : List JsObj),
      ∃ rest, selectLoop k score fuel remaining selected = selected ++ rest ∧
        rest.Subperm remaining := by
  intro fuel
  induction fuel with
  | zero => intro remaining selected; exact ⟨[], by simp [selectLoop], List.nil_subperm⟩
  | succ fuel ih =>
    intro remaining selected
    by_cases hg : (selected.length : ℤ) < k ∧ remaining ≠ []
    · rcases hb : (findBest (score selected) remaining).2 with _ | ⟨item, idx⟩
      · exact ⟨[], by simp [selectLoop, hg, hb], List.nil_subperm⟩
      · obtain ⟨hidx, hget⟩ := findBest_snd_spec _ _ hb
        obtain ⟨rest, hres, hsub⟩ := ih (remaining.eraseIdx idx) (selected ++ [item])
        refine ⟨item :: rest, ?_, ?_⟩
        · have hunf : selectLoop k score (fuel + 1) remaining selected
              = selectLoop k score fuel (remaining.eraseIdx idx) (selected ++ [item]) := by
            simp [selectLoop, hg, hb]
          rw [hunf, hres, List.append_assoc]
          rfl
        · have hperm := cons_eraseIdx_perm remaining idx item hget
          exact ((List.subperm_cons item).2 hsub).trans hperm.symm.subperm
    · exact ⟨[], by simp [selectLoop, hg], List.nil_subperm⟩

lemma selectLoop_length (k : ℤ) (score : List JsObj → JsObj → Option ℚ) :
    ∀ (fuel : ℕ) (remaining selected : List JsObj),
      remaining.length ≤ fuel →
      (selected.length : ℤ) ≤ k →
      (∀ sel x, x ∈ remaining → ∃ s, score sel x = some s ∧ 0 ≤ s) →
      (selectLoop k score fuel remaining selected).length
        = min k.toNat (selected.length + remaining.length) := by
  intro fuel
  induction fuel with
  | zero =>
    intro remaining selected hfuel hsel _
    have hrem : remaining = [] := List.length_eq_zero.1 (Nat.le_zero.1 hfuel)
    subst hrem
    have : selected.length ≤ k.toNat := by omega
    simp [selectLoop, this]
  | succ fuel ih =>
    intro remaining selected hfuel hsel hsc
    by_cases hlt : (selected.length : ℤ) < k
    · by_cases hrem : remaining = []
      · subst hrem
        rw [selectLoop, if_neg (by simp)]
        have : selected.length ≤ k.toNat := by omega
        simp only [List.length_nil, Nat.add_zero]
        omega
      · obtain ⟨item, idx, hb⟩ := findBest_snd_isSome (score selected) remaining hrem
          (hsc selected)
        obtain ⟨hidx, _⟩ := findBest_snd_spec _ _ hb
        have hunf : selectLoop k score (fuel + 1) remaining selected
            = selectLoop k score fuel (remaining.eraseIdx idx) (selected ++ [item]) := by
          simp [selectLoop, hlt, hrem, hb]
        rw [hunf, ih (remaining.eraseIdx idx) (selected ++ [item])
          (by rw [List.length_eraseIdx, if_pos hidx]; omega)
          (by simp; omega)
          (by
            intro sel x hx
            exact hsc sel x ((remaining.eraseIdx_sublist idx).subset hx))]
        rw [List.length_eraseIdx, if_pos hidx]
        simp only [List.length_append, List.length_cons, List.length_nil]
        omega
    · rw [selectLoop_stop k score _ remaining selected hlt]
      omega

lemma deltaKey_nonneg (f1 f2 : Flat) (k : String) : 0 ≤ deltaKey f1 f2 k := by
  simp only [deltaKey]
  rcases getVal f1 k with q1 | s1 | b1 | _ | _ <;>
    rcases getVal f2 k with q2 | s2 | b2 | _ | _ <;>
      simp only [] <;>
      split_ifs <;>
      first
        | exact zero_le_one
        | exact le_refl 0
        | exact div_nonneg (abs_nonneg _) (le_of_lt (by assumption))

lemma defaultDistance_nonneg (a b : JsObj) : 0 ≤ defaultDistance a b := by
  rw [defaultDistance_eq]
  split
  · apply div_nonneg
    · apply List.sum_nonneg
      intro q hq
      rcases List.mem_map.1 hq with ⟨key, _, rfl⟩
      exact deltaKey_nonneg _ _ _
    · positivity
  · norm_num

lemma completeness_bounds {o : JsObj} {c : ℚ} (h : calculateCompleteness o = some c) :
    0 ≤ c ∧ c ≤ 1 := by
  simp only [calculateCompleteness] at h
  split at h
  · exact absurd h (by simp)
  · have hc : c = (((flattenObject o).filter (fun kv => definedLeaf kv.2)).length : ℚ)
        / ((flattenObject o).length : ℚ) := by
      injection h with h'; exact h'.symm
    have hlenpos : 0 < (flattenObject o).length := Nat.pos_of_ne_zero (by assumption)
    have hfle : ((flattenObject o).filter (fun kv => definedLeaf kv.2)).length
        ≤ (flattenObject o).length := List.length_filter_le _ _
    constructor
    · rw [hc]; positivity
    · rw [hc]
      rw [div_le_one (by exact_mod_cast hlenpos)]
      exact_mod_cast hfle

lemma completeness_some_of_ne_nil {o : JsObj} (h : flattenObject o ≠ []) :
    ∃ c, calculateCompleteness o = some c := by
  simp only [calculateCompleteness]
  rw [if_neg (by simpa [List.length_eq_zero] using h)]
  exact ⟨_, rfl⟩

lemma foldl_min_nonneg {l : List ℚ} {a : ℚ} (ha : 0 ≤ a) (h : ∀ q ∈ l, 0 ≤ q) :
    0 ≤ l.foldl min a := by
  induction l generalizing a with
  | nil => exact ha
  | cons x xs ih =>
    exact ih (le_min ha (h x (List.mem_cons.2 (Or.inl rfl))))
      (fun q hq => h q (List.mem_cons.2 (Or.inr hq)))

lemma minList_nonneg {l : List ℚ} (h : ∀ q ∈ l, 0 ≤ q) : 0 ≤ minList l := by
  rcases l with _ | ⟨x, xs⟩
  · simp [minList]
  · exact foldl_min_nonneg (h x (List.mem_cons.2 (Or.inl rfl)))
      (fun q hq => h q (List.mem_cons.2 (Or.inr hq)))

lemma scoreOf_some_nonneg (dist : JsObj → JsObj → ℚ) (prio : Bool) (w : ℚ)
    (hd : ∀ a b, 0 ≤ dist a b) (hw0 : 0 ≤ w) (hw1 : w ≤ 1)
    (x : JsObj) (hx : prio = true → flattenObject x ≠ []) (sel : List JsObj) :
    ∃ s, scoreOf dist prio w sel x = some s ∧ 0 ≤ s := by
  have hmin : 0 ≤ minList (sel.map (fun s => dist x s)) := by
    apply minList_nonneg
    intro q hq
    rcases List.mem_map.1 hq with ⟨y, _, rfl⟩
    exact hd x y
  cases prio with
  | false => exact ⟨_, rfl, hmin⟩
  | true =>
    obtain ⟨c, hc⟩ := completeness_some_of_ne_nil (hx rfl)
    obtain ⟨hc0, _⟩ := completeness_bounds hc
    refine ⟨(1 - w) * minList (sel.map (fun s => dist x s)) + w * c, ?_, ?_⟩
    · simp [scoreOf, hc]
    · have : 0 ≤ (1 - w) * minList (sel.map (fun s => dist x s)) :=
        mul_nonneg (by linarith) hmin
      have : 0 ≤ w * c := mul_nonneg hw0 hc0
      linarith

lemma weight_bounds_of_valid {o : SelectorOptions} (hw : weightInvalid o = false) :
    0 ≤ o.completenessWeight.getD (3 / 10) ∧ o.completenessWeight.getD (3 / 10) ≤ 1 := by
  rcases hcw : o.completenessWeight with _ | w
  · norm_num
  · simp only [weightInvalid, hcw, Bool.or_eq_false_iff, decide_eq_false_iff_not] at hw
    simp only [Option.getD_some]
    constructor <;> [exact not_lt.1 hw.1; exact not_lt.1 hw.2]

lemma nodup_set_of_not_mem :
    ∀ (l : List ℕ) (j : ℕ) (a : ℕ), l.Nodup → a ∉ l → (l.set j a).Nodup := by
  intro l
  induction l with
  | nil => intro j a _ _; simp
  | cons x xs ih =>
    intro j a hnd ha
    cases j with
    | zero =>
      simp only [List.set]
      exact List.nodup_cons.2 ⟨fun hm => ha (List.mem_cons.2 (Or.inr hm)),
        (List.nodup_cons.1 hnd).2⟩
    | succ j =>
      simp only [List.set]
      refine List.nodup_cons.2 ⟨?_, ih j a (List.nodup_cons.1 hnd).2
        (fun hm => ha (List.mem_cons.2 (Or.inr hm)))⟩
      intro hx
      rcases List.mem_or_eq_of_mem_set hx with hx | rfl
      · exact (List.nodup_cons.1 hnd).1 hx
      · exact ha (List.mem_cons.2 (Or.inl rfl))

lemma range_map_getD (l : List JsObj) (k : ℕ) (hk : k ≤ l.length) :
    (List.range k).map (fun t => l.getD t JsObj.nil) = l.take k := by
  apply List.ext_getElem
  · simp [Nat.min_eq_left hk]
  · intro i h1 h2
    have hik : i < k := by simpa using h1
    have hil : i < l.length := lt_of_lt_of_le hik hk
    rw [List.getElem_map, List.getElem_range, List.getElem_take,
      List.getD_eq_getElem l JsObj.nil hil]

lemma subperm_map {α β : Type} (f : α → β) {l₁ l₂ : List α} (h : l₁.Subperm l₂) :
    (l₁.map f).Subperm (l₂.map f) := by
  obtain ⟨l, hperm, hsub⟩ := h
  exact ⟨l.map f, hperm.map f, hsub.map f⟩

lemma map_getD_subperm (l : List JsObj) (idxs : List ℕ)
    (hnd : idxs.Nodup) (hb : ∀ t ∈ idxs, t < l.length) :
    (idxs.map (fun t => l.getD t JsObj.nil)).Subperm l := by
  have h1 : idxs.Subperm (List.range l.length) :=
    hnd.subperm (fun t ht => List.mem_range.2 (hb t ht))
  have h2 := subperm_map (fun t => l.getD t JsObj.nil) h1
  rwa [range_map_getD l l.length le_rfl, List.take_length] at h2

lemma reservoir_foldl_spec (rj : ℕ → ℕ) (items : List JsObj) (k : ℕ) :
    ∀ (cnt m : ℕ) (idxs : List ℕ),
      idxs.Nodup → (∀ t ∈ idxs, t < m) →
      ∃ idxs' : List ℕ, idxs'.Nodup ∧ (∀ t ∈ idxs', t < m + cnt) ∧
        idxs'.length = idxs.length ∧
        (List.range' m cnt).foldl
          (fun res i =>
            let j := rj i % (i + 1)
            if j < k then res.set j (items.getD i JsObj.nil) else res)
          (idxs.map (fun t => items.getD t JsObj.nil))
        = idxs'.map (fun t => items.getD t JsObj.nil) := by
  intro cnt
  induction cnt with
  | zero =>
    intro m idxs hnd hb
    exact ⟨idxs, hnd, by simpa using hb, rfl, rfl⟩
  | succ cnt ih =>
    intro m idxs hnd hb
    rw [List.range'_succ, List.foldl_cons]
    by_cases hj : rj m % (m + 1) < k
    · have hmm : m ∉ idxs := fun hm => lt_irrefl m (hb m hm)
      simp only [hj, if_true]
      have hms : (idxs.map (fun t => items.getD t JsObj.nil)).set (rj m % (m + 1))
            (items.getD m JsObj.nil)
          = (idxs.set (rj m % (m + 1)) m).map (fun t => items.getD t JsObj.nil) :=
        List.map_set.symm
      rw [hms]
      obtain ⟨idxs', hnd', hb', hlen', heq'⟩ := ih (m + 1) (idxs.set (rj m % (m + 1)) m)
        (nodup_set_of_not_mem idxs _ m hnd hmm)
        (by
          intro t ht
          rcases List.mem_or_eq_of_mem_set ht with ht | rfl
          · exact Nat.lt_succ_of_lt (hb t ht)
          · exact Nat.lt_succ_self t)
      refine ⟨idxs', hnd', by intro t ht; have := hb' t ht; omega, ?_, heq'⟩
      rw [hlen', List.length_set]
    · simp only [hj, if_false]
      obtain ⟨idxs', hnd', hb', hlen', heq'⟩ := ih (m + 1) idxs hnd
        (fun t ht => Nat.lt_succ_of_lt (hb t ht))
      exact ⟨idxs', hnd', by intro t ht; have := hb' t ht; omega, hlen', heq'⟩

lemma reservoirSample_spec (rj : ℕ → ℕ) (items : List JsObj) (k : ℕ)
    (hk : k ≤ items.length) :
    (reservoirSample rj items k).length = k ∧
      (reservoirSample rj items k).Subperm items := by
  have h0 : items.take k = (List.range k).map (fun t => items.getD t JsObj.nil) :=
    (range_map_getD items k hk).symm
  obtain ⟨idxs', hnd', hb', hlen', heq'⟩ := reservoir_foldl_spec rj items k
    (items.length - k) k (List.range k) (List.nodup_range k)
    (fun t ht => List.mem_range.1 ht)
  have hres : reservoirSample rj items k = idxs'.map (fun t => items.getD t JsObj.nil) := by
    rw [reservoirSample, h0, heq']
  constructor
  · rw [hres, List.length_map, hlen', List.length_range]
  · rw [hres]
    refine map_getD_subperm items idxs' hnd' ?_
    intro t ht
    have := hb' t ht
    omega

lemma getEfficientSample_spec (shuffle : List JsObj → List JsObj) (rj : ℕ → ℕ)
    (items : List JsObj) (k : ℕ)
    (hsh : (shuffle items).Perm items) (hk : k ≤ items.length) :
    (getEfficientSample shuffle rj items k).length = k ∧
      (getEfficientSample shuffle rj items k).Subperm items := by
  rw [getEfficientSample]
  split
  · exact reservoirSample_spec rj items k hk
  · constructor
    · rw [getRandomSample, List.length_take, hsh.length_eq]
      exact Nat.min_eq_left hk
    · exact ((List.take_sublist k (shuffle items)).subperm).trans hsh.subperm

lemma selectPhase_spec (r : ℕ) (k : ℤ) (prio : Bool)
    (score : List JsObj → JsObj → Option ℚ) (sampled : List JsObj)
    (hk1 : 0 < k) (hne : sampled ≠ [])
    (hsc : ∀ sel x, x ∈ sampled → ∃ s, score sel x = some s ∧ 0 ≤ s) :
    (selectPhase r k prio score sampled).length = min k.toNat sampled.length ∧
      (selectPhase r k prio score sampled).Subperm sampled := by
  cases prio with
  | true =>
    rcases hs : sortByCompleteness sampled with _ | ⟨x, rest⟩
    · exfalso
      have h := List.mergeSort_perm sampled (fun a b => decide (completenessCmp a b ≤ 0))
      rw [sortByCompleteness] at hs
      rw [hs] at h
      exact hne h.symm.eq_nil
    · have hperm : List.Perm (x :: rest) sampled := by
        have h := List.mergeSort_perm sampled (fun a b => decide (completenessCmp a b ≤ 0))
        rw [sortByCompleteness] at hs
        rw [hs] at h
        exact h
      have hsel : selectPhase r k true score sampled
          = selectLoop k score rest.length rest [x] := by
        simp only [selectPhase, hs, if_true]
      have hsc' : ∀ sel y, y ∈ rest → ∃ s, score sel y = some s ∧ 0 ≤ s := by
        intro sel y hy
        exact hsc sel y (hperm.subset (List.mem_cons.2 (Or.inr hy)))
      constructor
      · rw [hsel, selectLoop_length k score rest.length rest [x] le_rfl
          (by simp; omega) hsc']
        have hlen : sampled.length = rest.length + 1 := by
          rw [← hperm.length_eq]; simp
        rw [hlen]
        simp only [List.length_cons, List.length_nil]
        omega
      · obtain ⟨tail, heq, hsub⟩ := selectLoop_append k score rest.length rest [x]
        rw [hsel, heq]
        have h1 : (x :: tail).Subperm (x :: rest) := (List.subperm_cons x).2 hsub
        exact h1.trans hperm.subperm
  | false =>
    have hlp : 0 < sampled.length := List.length_pos.2 hne
    rcases sampled with _ | ⟨y, ys⟩
    · exact absurd rfl hne
    · have hmod : r % (y :: ys).length < (y :: ys).length := Nat.mod_lt r hlp
      have hx : (y :: ys).getD (r % (y :: ys).length) JsObj.nil ∈ (y :: ys) := by
        rw [List.getD_eq_getElem (y :: ys) JsObj.nil hmod]
        exact List.getElem_mem _
      have hphase : selectPhase r k false score (y :: ys)
          = selectLoop k score
              ((y :: ys).erase ((y :: ys).getD (r % (y :: ys).length) JsObj.nil)).length
              ((y :: ys).erase ((y :: ys).getD (r % (y :: ys).length) JsObj.nil))
              [(y :: ys).getD (r % (y :: ys).length) JsObj.nil] := rfl
      have hperm := List.perm_cons_erase hx
      have herlen := List.length_erase_of_mem hx
      have hsc' : ∀ sel z,
          z ∈ (y :: ys).erase ((y :: ys).getD (r % (y :: ys).length) JsObj.nil) →
          ∃ s, score sel z = some s ∧ 0 ≤ s := by
        intro sel z hz
        exact hsc sel z ((List.erase_sublist _ _).subset hz)
      constructor
      · rw [hphase, selectLoop_length k score _ _ _ le_rfl (by simp; omega) hsc']
        rw [herlen]
        simp only [List.length_cons, List.length_nil]
        simp only [List.length_cons] at hlp ⊢
        omega
      · obtain ⟨tail, heq, hsub⟩ := selectLoop_append k score
          ((y :: ys).erase ((y :: ys).getD (r % (y :: ys).length) JsObj.nil)).length
          ((y :: ys).erase ((y :: ys).getD (r % (y :: ys).length) JsObj.nil))
          [(y :: ys).getD (r % (y :: ys).length) JsObj.nil]
        rw [hphase, heq]
        have h1 := (List.subperm_cons ((y :: ys).getD (r % (y :: ys).length) JsObj.nil)).2 hsub
        exact h1.trans hperm.symm.subperm

lemma sampleSize_pos_of_gt {items : List JsObj} {o : SelectorOptions}
    (hs : sampleInvalid o = false)
    (hgt : (items.length : ℤ) > o.sampleSize.getD (min 1000 (items.length : ℤ))) :
    1 ≤ o.sampleSize.getD (min 1000 (items.length : ℤ)) := by
  rcases hso : o.sampleSize with _ | s
  · simp only [hso, Option.getD_none] at hgt ⊢
    rcases le_total (1000 : ℤ) (items.length : ℤ) with h | h
    · rw [min_eq_left h] at hgt ⊢
      omega
    · rw [min_eq_right h] at hgt ⊢
      omega
  · simp only [sampleInvalid, hso, decide_eq_false_iff_not, not_le] at hs
    simp only [hso, Option.getD_some] at hgt ⊢
    omega

lemma workingSet_spec (shuffle : List JsObj → List JsObj) (rj : ℕ → ℕ)
    (items : List JsObj) (o : SelectorOptions)
    (hsh : ∀ l, (shuffle l).Perm l)
    (hs : sampleInvalid o = false) (hne : items ≠ []) :
    (if (items.length : ℤ) > o.sampleSize.getD (min 1000 (items.length : ℤ)) then
        getEfficientSample shuffle rj items
          (o.sampleSize.getD (min 1000 (items.length : ℤ))).toNat
      else items).length = effectiveSampleSize items o ∧
    (if (items.length : ℤ) > o.sampleSize.getD (min 1000 (items.length : ℤ)) then
        getEfficientSample shuffle rj items
          (o.sampleSize.getD (min 1000 (items.length : ℤ))).toNat
      else items).Subperm items ∧
    (if (items.length : ℤ) > o.sampleSize.getD (min 1000 (items.length : ℤ)) then
        getEfficientSample shuffle rj items
          (o.sampleSize.getD (min 1000 (items.length : ℤ))).toNat
      else items) ≠ [] := by
  split_ifs with hgt
  · have hS1 := sampleSize_pos_of_gt hs hgt
    have hkle : (o.sampleSize.getD (min 1000 (items.length : ℤ))).toNat ≤ items.length := by
      omega
    obtain ⟨hlen, hsub⟩ := getEfficientSample_spec shuffle rj items _ (hsh items) hkle
    refine ⟨?_, hsub, ?_⟩
    · rw [hlen, effectiveSampleSize, if_pos hgt]
    · rw [← List.length_pos, hlen]
      omega
  · exact ⟨by rw [effectiveSampleSize, if_neg hgt], List.Subperm.refl items, hne⟩

/-- Claim C1 (amended): for a non-empty collection, validation-passing
options, `0 < numExamples ≤ |items|`, any randomness, a nonnegative
distance function (the default is), and — when `prioritizeComplete` is
set — records with at least one flattened field (otherwise a NaN
completeness can stop the loop early), the selector succeeds and
returns exactly `min(numExamples, workingSetSize)` records drawn from
distinct positions of the input with no repeats (a sub-multiset of the
input).  The working set is the whole collection only when it fits in
`sampleSize`; the claim's "exactly numExamples for ANY sampleSize"
fails whenever `numExamples` exceeds the working-set size — see the
counterexample. -/
theorem claim_C1_result_length_and_subperm :
    ∀ (shuffle : List JsObj → List JsObj) (rj : ℕ → ℕ) (r : ℕ)
      (items : List JsObj) (o : SelectorOptions),
      (∀ l, (shuffle l).Perm l) →
      weightInvalid o = false → sampleInvalid o = false →
      0 < o.numExamples → o.numExamples ≤ (items.length : ℤ) →
      (∀ d, o.distanceFunction = some d → ∀ a b, 0 ≤ d a b) →
      (o.prioritizeComplete.getD false = true → ∀ x ∈ items, flattenObject x ≠ []) →
      ∃ l, selectDiverseExamples shuffle rj r items o = Except.ok l ∧
        l.length = min o.numExamples.toNat (effectiveSampleSize items o) ∧
        l.Subperm items := by
  intro shuffle rj r items o hsh hw hs hk0 hkle hd hpc
  have hne : items ≠ [] := by
    intro h
    rw [h] at hkle
    simp at hkle
    omega
  rw [selectDiverseExamples_eq_of_valid shuffle rj r items o hw hs]
  have hc1 : ¬(items.length = 0 ∨ o.numExamples = 0) := by
    push_neg
    exact ⟨fun h => hne (List.length_eq_zero.1 h), by omega⟩
  have hc2 : ¬ o.numExamples > (items.length : ℤ) := by omega
  rw [if_neg hc1, if_neg hc2]
  obtain ⟨hslen, hssub, hsne⟩ := workingSet_spec shuffle rj items o hsh hs hne
  have hwb := weight_bounds_of_valid hw
  have hdist : ∀ a b, 0 ≤ (o.distanceFunction.getD defaultDistance) a b := by
    rcases hdo : o.distanceFunction with _ | d
    · simp only [Option.getD_none]
      exact defaultDistance_nonneg
    · simp only [Option.getD_some]
      exact hd d hdo
  have hsc : ∀ sel x,
      x ∈ (if (items.length : ℤ) > o.sampleSize.getD (min 1000 (items.length : ℤ)) then
          getEfficientSample shuffle rj items
            (o.sampleSize.getD (min 1000 (items.length : ℤ))).toNat
        else items) →
      ∃ s, scoreOf (o.distanceFunction.getD defaultDistance)
        (o.prioritizeComplete.getD false) (o.completenessWeight.getD (3 / 10))
        sel x = some s ∧ 0 ≤ s := by
    intro sel x hx
    refine scoreOf_some_nonneg _ _ _ hdist hwb.1 hwb.2 x ?_ sel
    intro hp
    exact hpc hp x (hssub.subset hx)
  obtain ⟨hl, hsub⟩ := selectPhase_spec r o.numExamples (o.prioritizeComplete.getD false)
    _ _ hk0 hsne hsc
  exact ⟨_, rfl, by rw [hl, hslen], hsub.trans hssub⟩

/-- Claim C1 counterexample: `items = [{a:0}, {a:1}]`,
`numExamples = 2 ≤ |items|`, valid `sampleSize = 1`: the working set
shrinks to one record, the loop exhausts the remaining items after the
initial pick, and the result has 1 element instead of the claimed 2
(shown at the identity shuffle; this input returns a single element
under every randomness). -/
theorem claim_C1_counterexample :
    (SelectorOptions.mk 2 (some 1) none none none).numExamples = 2 ∧
    (0 : ℤ) < 2 ∧ (2 : ℤ) ≤ ([recX0, recX1].length : ℤ) ∧
    selectDiverseExamples id (fun n => n) 0 [recX0, recX1]
        (SelectorOptions.mk 2 (some 1) none none none) = Except.ok [recX0] ∧
    ([recX0].length : ℤ) ≠ 2 := by
  refine ⟨rfl, by norm_num, by norm_num, rfl, by norm_num⟩

/-- Witness for the amended C1: two records, `numExamples = 2`, default
sample size — the full collection is the working set, the result has
exactly 2 elements and is a sub-multiset of the input. -/
theorem claim_C1_result_length_and_subperm_witness :
    ∃ l, selectDiverseExamples id (fun n => n) 0 [recX0, recX1]
        (SelectorOptions.mk 2 none none none none) = Except.ok l ∧
      l.length = min (SelectorOptions.mk 2 none none none none).numExamples.toNat
        (effectiveSampleSize [recX0, recX1] (SelectorOptions.mk 2 none none none none)) ∧
      l.Subperm [recX0, recX1] :=
  claim_C1_result_length_and_subperm id (fun n => n) 0 [recX0, recX1]
    (SelectorOptions.mk 2 none none none none)
    (fun l => List.Perm.refl l) rfl rfl (by norm_num) (by norm_num)
    (fun d hd => by simp at hd) (fun hp => by simp at hp)

lemma selectPhase_k_nonpos (r : ℕ) (k : ℤ) (prio : Bool)
    (score : List JsObj → JsObj → Option ℚ) (sampled : List JsObj)
    (hk : k ≤ 0) (hne : sampled ≠ []) :
    ∃ x, selectPhase r k prio score sampled = [x] ∧ x ∈ sampled := by
  cases prio with
  | true =>
    rcases hs : sortByCompleteness sampled with _ | ⟨x, rest⟩
    · exfalso
      have h := List.mergeSort_perm sampled (fun a b => decide (completenessCmp a b ≤ 0))
      rw [sortByCompleteness] at hs
      rw [hs] at h
      exact hne h.symm.eq_nil
    · have hperm : List.Perm (x :: rest) sampled := by
        have h := List.mergeSort_perm sampled (fun a b => decide (completenessCmp a b ≤ 0))
        rw [sortByCompleteness] at hs
        rw [hs] at h
        exact h
      refine ⟨x, ?_, hperm.subset (List.mem_cons.2 (Or.inl rfl))⟩
      have hsel : selectPhase r k true score sampled
          = selectLoop k score rest.length rest [x] := by
        simp only [selectPhase, hs, if_true]
      rw [hsel, selectLoop_stop k score rest.length rest [x] (by simp; omega)]
  | false =>
    have hlp : 0 < sampled.length := List.length_pos.2 hne
    rcases sampled with _ | ⟨y, ys⟩
    · exact absurd rfl hne
    · have hmod : r % (y :: ys).length < (y :: ys).length := Nat.mod_lt r hlp
      have hx : (y :: ys).getD (r % (y :: ys).length) JsObj.nil ∈ (y :: ys) := by
        rw [List.getD_eq_getElem (y :: ys) JsObj.nil hmod]
        exact List.getElem_mem _
      refine ⟨(y :: ys).getD (r % (y :: ys).length) JsObj.nil, ?_, hx⟩
      have hphase : selectPhase r k false score (y :: ys)
          = selectLoop k score
              ((y :: ys).erase ((y :: ys).getD (r % (y :: ys).length) JsObj.nil)).length
              ((y :: ys).erase ((y :: ys).getD (r % (y :: ys).length) JsObj.nil))
              [(y :: ys).getD (r % (y :: ys).length) JsObj.nil] := rfl
      rw [hphase, selectLoop_stop _ _ _ _ _ (by simp; omega)]

/-- Claim C10: with a non-empty collection, validation-passing options
and a negative `numExamples`, no error is raised (the guards test only
`numExamples == 0` and `numExamples > |items|`, both false for a
negative request on a non-empty collection) and the result is exactly
the one initial pick: the loop guard `|selected| < numExamples` is
already false with one element selected. -/
theorem claim_C10_negative_request_returns_one :
    ∀ (shuffle : List JsObj → List JsObj) (rj : ℕ → ℕ) (r : ℕ)
      (items : List JsObj) (o : SelectorOptions),
      (∀ l, (shuffle l).Perm l) →
      weightInvalid o = false → sampleInvalid o = false →
      items ≠ [] → o.numExamples < 0 →
      ∃ x, x ∈ items ∧
        selectDiverseExamples shuffle rj r items o = Except.ok [x] := by
  intro shuffle rj r items o hsh hw hs hne hneg
  rw [selectDiverseExamples_eq_of_valid shuffle rj r items o hw hs]
  have hc1 : ¬(items.length = 0 ∨ o.numExamples = 0) := by
    push_neg
    exact ⟨fun h => hne (List.length_eq_zero.1 h), by omega⟩
  have hc2 : ¬ o.numExamples > (items.length : ℤ) := by
    have : (0 : ℤ) ≤ (items.length : ℤ) := Int.ofNat_nonneg items.length
    omega
  rw [if_neg hc1, if_neg hc2]
  obtain ⟨_, hssub, hsne⟩ := workingSet_spec shuffle rj items o hsh hs hne
  obtain ⟨x, hphase, hxmem⟩ := selectPhase_k_nonpos r o.numExamples
    (o.prioritizeComplete.getD false)
    (scoreOf (o.distanceFunction.getD defaultDistance) (o.prioritizeComplete.getD false)
      (o.completenessWeight.getD (3 / 10))) _ (by omega) hsne
  exact ⟨x, hssub.subset hxmem, by rw [hphase]⟩

/-- Witness for C10: one record, `numExamples = -1` — no error, one
element returned. -/
theorem claim_C10_negative_request_returns_one_witness :
    ∃ x, x ∈ [recX0] ∧
      selectDiverseExamples id (fun n => n) 0 [recX0]
        (SelectorOptions.mk (-1) none none none none) = Except.ok [x] :=
  claim_C10_negative_request_returns_one id (fun n => n) 0 [recX0]
    (SelectorOptions.mk (-1) none none none none)
    (fun l => List.Perm.refl l) rfl rfl (by simp) (by norm_num)
